import Mathlib

/-!
Shallow embedding of the deterministic core of `banff-booker`:
the date-variant generator (`src/auto_booker/config.py`, `Dates.date_variants`)
and the section/site selection policy (`src/auto_booker/booking.py`:
`_is_section_label`, `section_letter`, `select_section`, `select_site`).

Strings are handled through `List Char` with structural recursion so that
every definition evaluates by kernel reduction.  Python's string methods are
modelled one-for-one: `str.lower`/`str.upper` map ASCII case, `str.strip`
trims whitespace at both ends, `str.replace(pat, "")` deletes non-overlapping
occurrences left to right, `needle in hay` is substring containment,
`s.split()` keeps the maximal non-whitespace runs, `str.removeprefix` drops
an exact-case prefix.  Code that can raise (`label[5:].split()[0]` on an
empty token list raises `IndexError`) is modelled with `Option`.
-/

namespace BanffBooker

/-- Python `needle in hay` (substring containment) on character lists. -/
def containsSub (needle : List Char) : List Char → Bool
  | [] => needle.isEmpty
  | c :: t => needle.isPrefixOf (c :: t) || containsSub needle t

/-- Python `s.strip()`: drop whitespace from both ends. -/
def stripL (s : List Char) : List Char :=
  ((s.dropWhile Char.isWhitespace).reverse.dropWhile Char.isWhitespace).reverse

/-- Python `s.lower()` (ASCII case, which covers every label in scope). -/
def lowerL (s : List Char) : List Char := s.map Char.toLower

/-- Python `s.upper()` (ASCII case). -/
def upperL (s : List Char) : List Char := s.map Char.toUpper

/-- Python `s.removeprefix (pre)`: drop `pre` when it is an exact prefix. -/
def removePrefixL (pre s : List Char) : List Char :=
  if pre.isPrefixOf s then s.drop pre.length else s

/-- Python `s.replace (pat, "")`, fuel-indexed so the recursion is structural:
deletes non-overlapping occurrences of `pat` left to right.  Called with
`fuel = s.length`, which the scan never exhausts (each step consumes at
least one character of `s`). -/
def removeOccAux (pat : List Char) : Nat → List Char → List Char
  | _, [] => []
  | 0, s => s
  | fuel + 1, c :: rest =>
    if !pat.isEmpty && pat.isPrefixOf (c :: rest) then
      removeOccAux pat fuel ((c :: rest).drop pat.length)
    else
      c :: removeOccAux pat fuel rest

/-- Python `s.replace (pat, "")`. -/
def removeOcc (pat s : List Char) : List Char := removeOccAux pat s.length s

/-- Python `s.split()[0]` when it exists: the first maximal run of
non-whitespace characters. -/
def firstTokenL (s : List Char) : Option (List Char) :=
  match s.dropWhile Char.isWhitespace with
  | [] => none
  | c :: t => some ((c :: t).takeWhile (fun a => !a.isWhitespace))

/-! ## `Dates.date_variants` (config.py)

Calendar dates are represented by their ordinal day number (an `Int`);
`date + timedelta(days = d)` is integer addition and `(d2 - d1).days`
integer subtraction, which is exact for Python `datetime.date`. -/

/-- `Dates.date_variants` from `config.py`: the exact range first, then for
each offset `1 .. flexible_days` the range shifted by `+offset` and then by
`-offset`. -/
def date_variants (check_in check_out : Int) (flexible_days : Nat) :
    List (Int × Int) :=
  let stay := check_out - check_in
  (List.range flexible_days).foldl
    (fun variants (k : Nat) =>
      let off : Int := (k : Int) + 1
      variants ++
        [(check_in + off, check_in + off + stay),
         (check_in - off, check_in - off + stay)])
    [(check_in, check_out)]

/-! ## `_is_section_label` (booking.py) -/

/-- `_SECTION_PREFIXES` from booking.py. -/
def SECTION_PREFIXES : List (List Char) :=
  ["site ".toList, "loops".toList, "loop ".toList]

/-- `_is_section_label` from booking.py.  `none` models the `IndexError`
raised by `label[5:].split()[0]` when nothing follows the `"site "` prefix. -/
def is_section_label (label : List Char) : Option Bool :=
  let lower := lowerL label
  if !(SECTION_PREFIXES.any (fun p => p.isPrefixOf lower)) then
    some false
  else if "site ".toList.isPrefixOf lower then
    match firstTokenL (label.drop 5) with
    | none => none
    | some identifier => some (!(identifier.any Char.isDigit))
  else
    some true

/-! ## `section_letter` (booking.py) -/

/-- `section_letter` from booking.py, acting on the button's raw label text:
strip, drop the exact prefix `"Site "`, then for each suffix in
`["Available", "Not Available", "Unavailable"]` in that order delete every
occurrence and strip again. -/
def section_letter (raw : List Char) : List Char :=
  let label := stripL raw
  let part := stripL (removePrefixL "Site ".toList label)
  let part := stripL (removeOcc "Available".toList part)
  let part := stripL (removeOcc "Not Available".toList part)
  let part := stripL (removeOcc "Unavailable".toList part)
  part

/-! ## `select_section` (booking.py)

A discovered section button is represented by its raw label text (the
`aria-label` / text content the code reads from the `Locator`). -/

/-- `_label` inside `select_section`: the button's label, stripped. -/
def sectionLabel (raw : List Char) : List Char := stripL raw

/-- The priority-1 test: `pref.lower() in _label(sec).lower()`. -/
def secMatches (pref sec : List Char) : Bool :=
  containsSub (lowerL pref) (lowerL (sectionLabel sec))

/-- The priority-1 loop of `select_section`: first `preferred_sections`
entry (in order) matching a section, first matching section for it. -/
def pickPreferredSection :
    List (List Char) → List (List Char) → Option (List Char)
  | [], _ => none
  | p :: rest, sections =>
    match sections.find? (fun sec => secMatches p sec) with
    | some sec => some sec
    | none => pickPreferredSection rest sections

/-- `"".join(c for c in pref if c.isalpha()).upper()` from priority 2. -/
def derivedSectionId (pref : List Char) : List Char :=
  upperL (pref.filter Char.isAlpha)

/-- The priority-2 test: `section_letter(sec).upper() == pref_section`. -/
def derivedMatches (prefId sec : List Char) : Bool :=
  upperL (section_letter sec) == prefId

/-- The priority-2 loop of `select_section`: entries whose derived
identifier is empty are skipped (`if not pref_section: continue`). -/
def pickDerivedSection :
    List (List Char) → List (List Char) → Option (List Char)
  | [], _ => none
  | p :: rest, sections =>
    let prefId := derivedSectionId p
    if prefId.isEmpty then pickDerivedSection rest sections
    else
      match sections.find? (fun sec => derivedMatches prefId sec) with
      | some sec => some sec
      | none => pickDerivedSection rest sections

/-- `select_section` from booking.py. -/
def select_section (sections preferred_sections preferred_sites :
    List (List Char)) : Option (List Char) :=
  if sections.isEmpty then none
  else
    match pickPreferredSection preferred_sections sections with
    | some sec => some sec
    | none =>
      match pickDerivedSection preferred_sites sections with
      | some sec => some sec
      | none => sections.head?

/-! ## `select_site` (booking.py) -/

/-- The `SiteEntry` dataclass, reduced to its `name`; the `locator` field
is a browser handle with no bearing on the selection policy. -/
structure SiteEntry where
  name : List Char
deriving DecidableEq, Repr

/-- The match test of `select_site`:
`pref.strip().upper() in site.name.upper()`. -/
def siteMatches (pref : List Char) (s : SiteEntry) : Bool :=
  containsSub (upperL (stripL pref)) (upperL s.name)

/-- The preference loop of `select_site`. -/
def pickPreferredSite : List (List Char) → List SiteEntry → Option SiteEntry
  | [], _ => none
  | p :: rest, sites =>
    match sites.find? (fun s => siteMatches p s) with
    | some s => some s
    | none => pickPreferredSite rest sites

/-- `select_site` from booking.py. -/
def select_site (sites : List SiteEntry) (preferred_sites : List (List Char)) :
    Option SiteEntry :=
  if sites.isEmpty then none
  else
    match pickPreferredSite preferred_sites sites with
    | some s => some s
    | none => sites.head?

/-! ## Definitions following the spec's words (for refinement comparison) -/

/-- The section/loop classification rule as the spec words it: the label
must begin (case-insensitively) with `"site "`, `"loops"` or `"loop "`,
and when it begins with `"site "` the whitespace-delimited token
immediately following must exist and contain no digit. -/
def sectionLabelSpec (label : List Char) : Bool :=
  let lower := lowerL label
  ("site ".toList.isPrefixOf lower
      || "loops".toList.isPrefixOf lower
      || "loop ".toList.isPrefixOf lower)
    && (if "site ".toList.isPrefixOf lower then
          match firstTokenL (label.drop 5) with
          | some t => !(t.any Char.isDigit)
          | none => false
        else true)

/-- The site-preference test as claim C6 words it: the site's name contains
the preference entry itself as a case-insensitive substring — without the
trimming the code applies to the entry. -/
def claimSiteMatches (pref : List Char) (s : SiteEntry) : Bool :=
  containsSub (upperL pref) (upperL s.name)

/-! ## Lemmas about the preference loops -/

lemma pickPreferredSection_eq_none {prefs sections : List (List Char)}
    (h : ∀ q ∈ prefs, ∀ sec ∈ sections, secMatches q sec = false) :
    pickPreferredSection prefs sections = none := by
  induction prefs with
  | nil => rfl
  | cons p rest ih =>
    have hfind : sections.find? (fun sec => secMatches p sec) = none :=
      List.find?_eq_none.mpr (fun x hx => by simp [h p (by simp) x hx])
    simp [pickPreferredSection, hfind]
    exact ih (fun q hq => h q (by simp [hq]))

lemma pickPreferredSection_append {pre rest sections : List (List Char)}
    (h : ∀ q ∈ pre, ∀ sec ∈ sections, secMatches q sec = false) :
    pickPreferredSection (pre ++ rest) sections
      = pickPreferredSection rest sections := by
  induction pre with
  | nil => rfl
  | cons p pre' ih =>
    have hfind : sections.find? (fun sec => secMatches p sec) = none :=
      List.find?_eq_none.mpr (fun x hx => by simp [h p (by simp) x hx])
    simp [pickPreferredSection, hfind]
    exact ih (fun q hq => h q (by simp [hq]))

lemma pickPreferredSection_cons_found {p : List Char}
    {rest sections : List (List Char)}
    (h : ∃ sec ∈ sections, secMatches p sec = true) :
    pickPreferredSection (p :: rest) sections
      = sections.find? (fun sec => secMatches p sec) := by
  obtain ⟨sec, hmem, hsec⟩ := h
  cases hfind : sections.find? (fun sec => secMatches p sec) with
  | none =>
    exact absurd hsec (by simpa using List.find?_eq_none.mp hfind sec hmem)
  | some s => simp [pickPreferredSection, hfind]

lemma pickPreferredSection_mem {prefs sections : List (List Char)}
    {sec : List Char} (h : pickPreferredSection prefs sections = some sec) :
    sec ∈ sections := by
  induction prefs with
  | nil => simp [pickPreferredSection] at h
  | cons p rest ih =>
    rw [pickPreferredSection] at h
    cases hfind : sections.find? (fun s => secMatches p s) with
    | none => rw [hfind] at h; exact ih h
    | some s =>
      rw [hfind] at h
      cases h
      exact List.mem_of_find?_eq_some hfind

lemma pickDerivedSection_eq_none {prefs sections : List (List Char)}
    (h : ∀ q ∈ prefs, derivedSectionId q = [] ∨
         ∀ sec ∈ sections, derivedMatches (derivedSectionId q) sec = false) :
    pickDerivedSection prefs sections = none := by
  induction prefs with
  | nil => rfl
  | cons p rest ih =>
    have hrest : pickDerivedSection rest sections = none :=
      ih (fun q hq => h q (by simp [hq]))
    rcases h p (by simp) with hnil | hall
    · simp [pickDerivedSection, hnil, hrest]
    · have hfind : sections.find? (fun sec =>
          derivedMatches (derivedSectionId p) sec) = none :=
        List.find?_eq_none.mpr (fun x hx => by simp [hall x hx])
      simp [pickDerivedSection, hfind, hrest]

lemma pickDerivedSection_append {pre rest sections : List (List Char)}
    (h : ∀ q ∈ pre, derivedSectionId q = [] ∨
         ∀ sec ∈ sections, derivedMatches (derivedSectionId q) sec = false) :
    pickDerivedSection (pre ++ rest) sections
      = pickDerivedSection rest sections := by
  induction pre with
  | nil => rfl
  | cons p pre' ih =>
    have hrest := ih (fun q hq => h q (by simp [hq]))
    rcases h p (by simp) with hnil | hall
    · simp [pickDerivedSection, hnil, hrest]
    · have hfind : sections.find? (fun sec =>
          derivedMatches (derivedSectionId p) sec) = none :=
        List.find?_eq_none.mpr (fun x hx => by simp [hall x hx])
      simp [pickDerivedSection, hfind, hrest]

lemma pickDerivedSection_cons_found {p : List Char}
    {rest sections : List (List Char)}
    (hp : derivedSectionId p ≠ [])
    (h : ∃ sec ∈ sections, derivedMatches (derivedSectionId p) sec = true) :
    pickDerivedSection (p :: rest) sections
      = sections.find? (fun sec => derivedMatches (derivedSectionId p) sec) := by
  obtain ⟨sec, hmem, hsec⟩ := h
  have hne : (derivedSectionId p).isEmpty = false := by
    cases hd : derivedSectionId p with
    | nil => exact absurd hd hp
    | cons a t => rfl
  cases hfind : sections.find? (fun sec =>
      derivedMatches (derivedSectionId p) sec) with
  | none =>
    exact absurd hsec (by simpa using List.find?_eq_none.mp hfind sec hmem)
  | some s => simp [pickDerivedSection, hne, hfind]

lemma pickDerivedSection_mem {prefs sections : List (List Char)}
    {sec : List Char} (h : pickDerivedSection prefs sections = some sec) :
    sec ∈ sections := by
  induction prefs with
  | nil => simp [pickDerivedSection] at h
  | cons p rest ih =>
    rw [pickDerivedSection] at h
    by_cases hd : (derivedSectionId p).isEmpty
    · rw [if_pos hd] at h; exact ih h
    · rw [if_neg hd] at h
      cases hfind : sections.find? (fun s =>
          derivedMatches (derivedSectionId p) s) with
      | none => rw [hfind] at h; exact ih h
      | some s =>
        rw [hfind] at h
        cases h
        exact List.mem_of_find?_eq_some hfind

lemma pickPreferredSite_eq_none {prefs : List (List Char)}
    {sites : List SiteEntry}
    (h : ∀ q ∈ prefs, ∀ s ∈ sites, siteMatches q s = false) :
    pickPreferredSite prefs sites = none := by
  induction prefs with
  | nil => rfl
  | cons p rest ih =>
    have hfind : sites.find? (fun s => siteMatches p s) = none :=
      List.find?_eq_none.mpr (fun x hx => by simp [h p (by simp) x hx])
    simp [pickPreferredSite, hfind]
    exact ih (fun q hq => h q (by simp [hq]))

lemma pickPreferredSite_append {pre rest : List (List Char)}
    {sites : List SiteEntry}
    (h : ∀ q ∈ pre, ∀ s ∈ sites, siteMatches q s = false) :
    pickPreferredSite (pre ++ rest) sites = pickPreferredSite rest sites := by
  induction pre with
  | nil => rfl
  | cons p pre' ih =>
    have hfind : sites.find? (fun s => siteMatches p s) = none :=
      List.find?_eq_none.mpr (fun x hx => by simp [h p (by simp) x hx])
    simp [pickPreferredSite, hfind]
    exact ih (fun q hq => h q (by simp [hq]))

lemma pickPreferredSite_cons_found {p : List Char} {rest : List (List Char)}
    {sites : List SiteEntry}
    (h : ∃ s ∈ sites, siteMatches p s = true) :
    pickPreferredSite (p :: rest) sites
      = sites.find? (fun s => siteMatches p s) := by
  obtain ⟨s0, hmem, hs⟩ := h
  cases hfind : sites.find? (fun s => siteMatches p s) with
  | none =>
    exact absurd hs (by simpa using List.find?_eq_none.mp hfind s0 hmem)
  | some s => simp [pickPreferredSite, hfind]

lemma pickPreferredSite_mem {prefs : List (List Char)} {sites : List SiteEntry}
    {s : SiteEntry} (h : pickPreferredSite prefs sites = some s) :
    s ∈ sites := by
  induction prefs with
  | nil => simp [pickPreferredSite] at h
  | cons p rest ih =>
    rw [pickPreferredSite] at h
    cases hfind : sites.find? (fun x => siteMatches p x) with
    | none => rw [hfind] at h; exact ih h
    | some x =>
      rw [hfind] at h
      cases h
      exact List.mem_of_find?_eq_some hfind

lemma select_section_ne {sections psecs prefs : List (List Char)}
    (hne : sections ≠ []) :
    select_section sections psecs prefs
      = match pickPreferredSection psecs sections with
        | some sec => some sec
        | none =>
          match pickDerivedSection prefs sections with
          | some sec => some sec
          | none => sections.head? := by
  cases sections with
  | nil => exact absurd rfl hne
  | cons a l => rfl

lemma select_site_ne {sites : List SiteEntry} {prefs : List (List Char)}
    (hne : sites ≠ []) :
    select_site sites prefs
      = match pickPreferredSite prefs sites with
        | some s => some s
        | none => sites.head? := by
  cases sites with
  | nil => exact absurd rfl hne
  | cons a l => rfl

/-! ## Lemmas about the date-variant generator -/

lemma foldl_append_eq_flatMap {α β : Type} (f : α → List β) :
    ∀ (l : List α) (acc : List β),
      l.foldl (fun a x => a ++ f x) acc = acc ++ l.flatMap f := by
  intro l
  induction l with
  | nil => intro acc; simp
  | cons x t ih => intro acc; simp [ih]

lemma length_flatMap_two {β : Type} (n : Nat) (f g : Nat → β) :
    ((List.range n).flatMap (fun k => [f k, g k])).length = 2 * n := by
  induction n with
  | zero => simp
  | succ m ih => simp [List.range_succ, ih]; omega

lemma date_variants_eq (ci co : Int) (n : Nat) :
    date_variants ci co n
      = (ci, co) :: (List.range n).flatMap (fun k =>
          [(ci + ((k : Int) + 1), co + ((k : Int) + 1)),
           (ci - ((k : Int) + 1), co - ((k : Int) + 1))]) := by
  have h2 : ∀ x : Int, ci + x + (co - ci) = co + x := fun x => by ring
  have h3 : ∀ x : Int, ci - x + (co - ci) = co - x := fun x => by ring
  simp only [date_variants]
  rw [foldl_append_eq_flatMap, List.singleton_append]
  exact congrArg _ (congrArg _ (funext fun k => by rw [h2, h3]))

lemma select_section_mem {sections psecs prefs : List (List Char)}
    (hne : sections ≠ []) :
    ∃ sec ∈ sections, select_section sections psecs prefs = some sec := by
  rw [select_section_ne hne]
  cases h1 : pickPreferredSection psecs sections with
  | some sec => exact ⟨sec, pickPreferredSection_mem h1, rfl⟩
  | none =>
    cases h2 : pickDerivedSection prefs sections with
    | some sec => exact ⟨sec, pickDerivedSection_mem h2, rfl⟩
    | none =>
      cases sections with
      | nil => exact absurd rfl hne
      | cons a l => exact ⟨a, by simp, rfl⟩

lemma select_site_mem {sites : List SiteEntry} {prefs : List (List Char)}
    (hne : sites ≠ []) :
    ∃ s ∈ sites, select_site sites prefs = some s := by
  rw [select_site_ne hne]
  cases h1 : pickPreferredSite prefs sites with
  | some s => exact ⟨s, pickPreferredSite_mem h1, rfl⟩
  | none =>
    cases sites with
    | nil => exact absurd rfl hne
    | cons a l => exact ⟨a, by simp, rfl⟩

lemma derivedSectionId_eq_nil {p : List Char}
    (hp : ∀ c ∈ p, c.isAlpha = false) : derivedSectionId p = [] := by
  have hfilter : p.filter Char.isAlpha = [] := by
    rw [List.filter_eq_nil_iff]
    intro a ha
    simp [hp a ha]
  simp [derivedSectionId, upperL, hfilter]

lemma pickDerivedSection_skip {sections post : List (List Char)}
    {p : List Char} (hp : derivedSectionId p = []) :
    ∀ pre : List (List Char),
      pickDerivedSection (pre ++ p :: post) sections
        = pickDerivedSection (pre ++ post) sections := by
  intro pre
  induction pre with
  | nil => simp [pickDerivedSection, hp]
  | cons q pre' ih =>
    simp only [List.cons_append, pickDerivedSection, List.append_eq, ih]

/-! ## The claims -/

/-- C1: for all `check_in < check_out` and `flexible_days = n ≥ 0`,
`Dates.date_variants` returns exactly `1 + 2n` pairs, the exact requested
range first, then for each offset `1 .. n` in ascending order the range
shifted forward by the offset and then the range shifted backward by it,
every produced range keeping the requested stay length
`check_out - check_in`. -/
theorem claim_C1_date_variants (check_in check_out : Int) (flexible_days : Nat)
    (h : check_in < check_out) :
    (date_variants check_in check_out flexible_days).length
        = 1 + 2 * flexible_days
    ∧ date_variants check_in check_out flexible_days
        = (check_in, check_out) :: (List.range flexible_days).flatMap (fun k =>
            [(check_in + ((k : Int) + 1), check_out + ((k : Int) + 1)),
             (check_in - ((k : Int) + 1), check_out - ((k : Int) + 1))])
    ∧ ∀ p ∈ date_variants check_in check_out flexible_days,
        p.2 - p.1 = check_out - check_in := by
  refine ⟨?_, date_variants_eq _ _ _, ?_⟩
  · rw [date_variants_eq, List.length_cons, length_flatMap_two]
    omega
  · intro p hp
    rw [date_variants_eq] at hp
    simp only [List.mem_cons, List.mem_flatMap, List.mem_range,
      List.mem_singleton] at hp
    rcases hp with h0 | ⟨k, hk, h1 | h1 | h1⟩
    · subst h0; rfl
    · subst h1
      show check_out + ((k : Int) + 1) - (check_in + ((k : Int) + 1))
          = check_out - check_in
      ring
    · subst h1
      show check_out - ((k : Int) + 1) - (check_in - ((k : Int) + 1))
          = check_out - check_in
      ring
    · cases h1

/-- Witness for C1 at `check_in = 0`, `check_out = 3`, `flexible_days = 2`
(the spec's own worked example, as day ordinals). -/
theorem claim_C1_witness :
    (date_variants 0 3 2).length = 1 + 2 * 2 :=
  (claim_C1_date_variants 0 3 2 (by decide)).1

/-- C2 counterexample: the claim requires the alphabetic-stripping rule on
the section's side as well, so the entry `"Loops 6"` (derived id `"LOOPS"`)
would have to select `"Loops 6-10  Available"` (whose both-sides-stripped
identifier is also `"LOOPS"`); the code does not strip the section's side
and instead falls through to the first section. -/
theorem claim_C2_counterexample :
    derivedSectionId "Loops 6".toList
        = derivedSectionId (section_letter "Loops 6-10  Available".toList)
    ∧ derivedSectionId "Loops 6".toList
        ≠ derivedSectionId (section_letter "Site A  Available".toList)
    ∧ select_section
        ["Site A  Available".toList, "Loops 6-10  Available".toList]
        [] ["Loops 6".toList]
      = some "Site A  Available".toList := by decide

/-- C2 (amended): when no `preferred_sections` entry matches, then for the
first `preferred_sites` entry (in order) whose derived identifier is
non-empty and equals — with no stripping applied to the section's side —
the upper-cased `section_letter` identifier of some section, the first such
section (in section-list order) is returned. -/
theorem claim_C2_derived_match_rule
    (sections psecs prefs pre post : List (List Char)) (p : List Char)
    (hne : sections ≠ [])
    (hsecs : ∀ q ∈ psecs, ∀ sec ∈ sections, secMatches q sec = false)
    (hsplit : prefs = pre ++ p :: post)
    (hpre : ∀ q ∈ pre, derivedSectionId q = [] ∨
        ∀ sec ∈ sections, derivedMatches (derivedSectionId q) sec = false)
    (hp : derivedSectionId p ≠ [])
    (hmatch : ∃ sec ∈ sections, derivedMatches (derivedSectionId p) sec = true) :
    select_section sections psecs prefs
      = sections.find? (fun sec => derivedMatches (derivedSectionId p) sec) := by
  have h1 := pickPreferredSection_eq_none hsecs
  have h2 : pickDerivedSection prefs sections
      = sections.find? (fun sec => derivedMatches (derivedSectionId p) sec) := by
    subst hsplit
    rw [pickDerivedSection_append hpre]
    exact pickDerivedSection_cons_found hp hmatch
  obtain ⟨sec, hmem, hsec⟩ := hmatch
  cases hfind : sections.find? (fun sec =>
      derivedMatches (derivedSectionId p) sec) with
  | none =>
    exact absurd hsec (by simpa using List.find?_eq_none.mp hfind sec hmem)
  | some s => rw [select_section_ne hne, h1, h2, hfind]

/-- Witness for C2's amended rule: entry `"B21"` derives `"B"` and selects
`"Site B  Available"` (identifier `"B"`), not the first section. -/
theorem claim_C2_witness :
    select_section ["Site A  Available".toList, "Site B  Available".toList]
        [] ["B21".toList]
      = ["Site A  Available".toList, "Site B  Available".toList].find?
          (fun sec => derivedMatches (derivedSectionId "B21".toList) sec) :=
  claim_C2_derived_match_rule
    ["Site A  Available".toList, "Site B  Available".toList] [] ["B21".toList]
    [] [] "B21".toList (by decide) (by simp) rfl (by simp) (by decide)
    (by decide)

/-- C3: `section_letter` strips the `"Site "` prefix and the trailing
availability marker.  This holds for `"Available"` and `"Unavailable"`, but
for a `"Not Available"` label the code deletes the inner `"Available"`
first and leaves `"A  Not"` instead of the claimed `"A"` — the
`"Not Available"` entry of the code's own suffix list is unreachable. -/
theorem claim_C3_not_available_mangled :
    section_letter "Site A  Not Available".toList = "A  Not".toList
    ∧ section_letter "Site A  Available".toList = "A".toList
    ∧ section_letter "Site B  Unavailable".toList = "B".toList
    ∧ section_letter "Site Loops 22-27  Available".toList
        = "Loops 22-27".toList := by decide

/-- C4: the classification predicate is claimed total, but on the label
`"site "` the code evaluates `label[5:].split()[0]` on an empty token list
and raises `IndexError` (modelled by `none`); a label merely lacking the
prefix does return a boolean. -/
theorem claim_C4_malformed_label_raises :
    is_section_label "site ".toList = none
    ∧ is_section_label "Reserve".toList = some false := by decide

/-- C5: `_is_section_label` returns true exactly when the label begins,
case-insensitively, with `"site "`, `"loops"` or `"loop "`, and — when it
begins with `"site "` — the whitespace-delimited token immediately
following exists and contains no digit; in particular
`"Site A49  Available"` is rejected and `"Loops 22-27  Available"`
accepted. -/
theorem claim_C5_section_label_rule :
    (∀ label : List Char,
        is_section_label label = some true ↔ sectionLabelSpec label = true)
    ∧ is_section_label "Site A49  Available".toList = some false
    ∧ is_section_label "Loops 22-27  Available".toList = some true := by
  refine ⟨?_, by decide, by decide⟩
  intro label
  simp only [is_section_label, sectionLabelSpec, SECTION_PREFIXES,
    List.any_cons, List.any_nil, Bool.or_false]
  cases hsite : "site ".toList.isPrefixOf (lowerL label) with
  | true =>
    cases hft : firstTokenL (label.drop 5) with
    | none => simp [hsite, hft]
    | some t => simp [hsite, hft]
  | false =>
    cases hloops : "loops".toList.isPrefixOf (lowerL label) <;>
      cases hloop : "loop ".toList.isPrefixOf (lowerL label) <;>
        simp [hsite, hloops, hloop]

/-- C6 counterexample: with sites `["B", "A"]` and the preference `" A "`,
no site name contains the entry itself as a substring, so the claim demands
the first-site fallback `"B"`; the code trims the entry and returns `"A"`. -/
theorem claim_C6_counterexample :
    (∀ s ∈ ([⟨"B".toList⟩, ⟨"A".toList⟩] : List SiteEntry),
        claimSiteMatches " A ".toList s = false)
    ∧ select_site [⟨"B".toList⟩, ⟨"A".toList⟩] [" A ".toList]
        = some ⟨"A".toList⟩
    ∧ some (⟨"A".toList⟩ : SiteEntry) ≠ some ⟨"B".toList⟩ := by decide

/-- C6 (amended): for the first `preferred_sites` entry (in order) whose
trimmed, case-folded text is contained in some site's name, `select_site`
returns the first such site in site-list order; when no entry matches any
site it returns the first site. -/
theorem claim_C6_site_selection (sites : List SiteEntry)
    (prefs pre post : List (List Char)) (p : List Char)
    (hne : sites ≠ []) :
    (prefs = pre ++ p :: post →
       (∀ q ∈ pre, ∀ s ∈ sites, siteMatches q s = false) →
       (∃ s ∈ sites, siteMatches p s = true) →
       select_site sites prefs = sites.find? (fun s => siteMatches p s))
    ∧ ((∀ q ∈ prefs, ∀ s ∈ sites, siteMatches q s = false) →
       select_site sites prefs = sites.head?) := by
  constructor
  · intro hsplit hpre hmatch
    have h2 : pickPreferredSite prefs sites
        = sites.find? (fun s => siteMatches p s) := by
      subst hsplit
      rw [pickPreferredSite_append hpre]
      exact pickPreferredSite_cons_found hmatch
    obtain ⟨s0, hmem, hs⟩ := hmatch
    cases hfind : sites.find? (fun s => siteMatches p s) with
    | none =>
      exact absurd hs (by simpa using List.find?_eq_none.mp hfind s0 hmem)
    | some s => rw [select_site_ne hne, h2, hfind]
  · intro hnone
    rw [select_site_ne hne, pickPreferredSite_eq_none hnone]

/-- Witness for C6's amended rule: `"x"` matches nothing, then `"22B "`
(trimmed to `"22B"`) selects site `"22B"`. -/
theorem claim_C6_witness :
    select_site [⟨"22A".toList⟩, ⟨"22B".toList⟩] ["x".toList, "22B ".toList]
      = [(⟨"22A".toList⟩ : SiteEntry), ⟨"22B".toList⟩].find?
          (fun s => siteMatches "22B ".toList s) :=
  (claim_C6_site_selection [⟨"22A".toList⟩, ⟨"22B".toList⟩]
      ["x".toList, "22B ".toList] ["x".toList] [] "22B ".toList
      (by decide)).1 rfl (by decide) (by decide)

/-- C7: the first `preferred_sections` entry that is a case-insensitive
substring of some section's label selects the first matching section,
whatever `preferred_sites` says (priority over the derived match); and
when neither a `preferred_sections` entry nor a derived `preferred_sites`
identifier matches, the first section is returned unchanged. -/
theorem claim_C7_section_priority (sections psecs prefs : List (List Char))
    (hne : sections ≠ []) :
    (∀ pre p post, psecs = pre ++ p :: post →
       (∀ q ∈ pre, ∀ sec ∈ sections, secMatches q sec = false) →
       (∃ sec ∈ sections, secMatches p sec = true) →
       select_section sections psecs prefs
         = sections.find? (fun sec => secMatches p sec))
    ∧ ((∀ q ∈ psecs, ∀ sec ∈ sections, secMatches q sec = false) →
       (∀ q ∈ prefs, derivedSectionId q = [] ∨
          ∀ sec ∈ sections, derivedMatches (derivedSectionId q) sec = false) →
       select_section sections psecs prefs = sections.head?) := by
  constructor
  · intro pre p post hsplit hpre hmatch
    have h1 : pickPreferredSection psecs sections
        = sections.find? (fun sec => secMatches p sec) := by
      subst hsplit
      rw [pickPreferredSection_append hpre]
      exact pickPreferredSection_cons_found hmatch
    obtain ⟨sec, hmem, hsec⟩ := hmatch
    cases hfind : sections.find? (fun sec => secMatches p sec) with
    | none =>
      exact absurd hsec (by simpa using List.find?_eq_none.mp hfind sec hmem)
    | some s => rw [select_section_ne hne, h1, hfind]
  · intro h1 h2
    rw [select_section_ne hne, pickPreferredSection_eq_none h1,
      pickDerivedSection_eq_none h2]

/-- Witness for C7 at the spec's example: `preferred_sections = ["Loops 6"]`
beats the site-derived preference `["1A"]`. -/
theorem claim_C7_witness :
    select_section
        ["Loops 1-5  Available".toList, "Loops 6-10  Available".toList]
        ["Loops 6".toList] ["1A".toList]
      = ["Loops 1-5  Available".toList, "Loops 6-10  Available".toList].find?
          (fun sec => secMatches "Loops 6".toList sec) :=
  (claim_C7_section_priority
      ["Loops 1-5  Available".toList, "Loops 6-10  Available".toList]
      ["Loops 6".toList] ["1A".toList] (by decide)).1
    [] "Loops 6".toList [] rfl (by simp) (by decide)

/-- C8: each selection function returns `none` exactly on an empty
candidate list, and on a non-empty list it returns one of the candidates
(never an exception in the model: both functions are total). -/
theorem claim_C8_none_iff_empty (sections psecs prefs : List (List Char))
    (sites : List SiteEntry) (sprefs : List (List Char)) :
    ((select_section sections psecs prefs = none ↔ sections = [])
     ∧ (sections ≠ [] →
        ∃ sec ∈ sections, select_section sections psecs prefs = some sec))
    ∧ ((select_site sites sprefs = none ↔ sites = [])
     ∧ (sites ≠ [] → ∃ s ∈ sites, select_site sites sprefs = some s)) := by
  refine ⟨⟨⟨?_, ?_⟩, fun hne => select_section_mem hne⟩,
    ⟨⟨?_, ?_⟩, fun hne => select_site_mem hne⟩⟩
  · intro hnone
    by_contra hne
    obtain ⟨sec, _, hsec⟩ := @select_section_mem sections psecs prefs hne
    rw [hsec] at hnone
    exact Option.noConfusion hnone
  · intro h; subst h; rfl
  · intro hnone
    by_contra hne
    obtain ⟨s, _, hs⟩ := @select_site_mem sites sprefs hne
    rw [hs] at hnone
    exact Option.noConfusion hnone
  · intro h; subst h; rfl

/-- Witness for C8: a singleton section list yields a member. -/
theorem claim_C8_witness :
    ∃ sec ∈ ["Site A  Available".toList],
      select_section ["Site A  Available".toList] [] [] = some sec :=
  (claim_C8_none_iff_empty ["Site A  Available".toList] [] [] [] []).1.2
    (by decide)

/-- C9: both selection functions are deterministic — on equal inputs they
produce equal outputs, with no hidden state. -/
theorem claim_C9_deterministic
    (sections sections' psecs psecs' prefs prefs' : List (List Char))
    (sites sites' : List SiteEntry) (sprefs sprefs' : List (List Char))
    (h1 : sections = sections') (h2 : psecs = psecs') (h3 : prefs = prefs')
    (h4 : sites = sites') (h5 : sprefs = sprefs') :
    select_section sections psecs prefs = select_section sections' psecs' prefs'
    ∧ select_site sites sprefs = select_site sites' sprefs' := by
  subst h1; subst h2; subst h3; subst h4; subst h5
  exact ⟨rfl, rfl⟩

/-- Witness for C9 at concrete inputs. -/
theorem claim_C9_witness :
    select_section ["Site A  Available".toList] ["A".toList] ["A21".toList]
      = select_section ["Site A  Available".toList] ["A".toList] ["A21".toList]
    ∧ select_site [⟨"A49".toList⟩] ["A49".toList]
      = select_site [⟨"A49".toList⟩] ["A49".toList] :=
  claim_C9_deterministic _ _ _ _ _ _ _ _ _ _ rfl rfl rfl rfl rfl

/-- C10: a `preferred_sites` entry with no alphabetic character derives an
empty identifier and is skipped by priority 2 entirely: deleting it from
the preference list never changes the selected section. -/
theorem claim_C10_nonalpha_site_pref_skipped
    (sections psecs pre post : List (List Char)) (p : List Char)
    (hp : ∀ c ∈ p, c.isAlpha = false) :
    select_section sections psecs (pre ++ p :: post)
      = select_section sections psecs (pre ++ post) := by
  have hnil := derivedSectionId_eq_nil hp
  cases sections with
  | nil => rfl
  | cons a l =>
    rw [select_section_ne (by simp), select_section_ne (by simp),
      pickDerivedSection_skip hnil]

/-- Witness for C10: the all-digit entry `"21"` changes nothing. -/
theorem claim_C10_witness :
    select_section ["Site B  Available".toList, "Site C  Available".toList]
        [] ["21".toList, "C7".toList]
      = select_section ["Site B  Available".toList, "Site C  Available".toList]
        [] ["C7".toList] :=
  claim_C10_nonalpha_site_pref_skipped _ [] [] ["C7".toList] "21".toList
    (by decide)

end BanffBooker
